import Mathlib

/-!
Shallow embedding of the AutoTriage bug-routing core
(`src/ownership_analyzer.py` and `src/intelligent_router.py`).

Python dictionaries are modelled as insertion-ordered association lists
(`List (String × β)`), which matches CPython's guaranteed dict iteration
order.  `defaultdict` access-with-default is `bumpWith`.  Python `float`
arithmetic is modelled over `ℚ`; the numeric literals appearing in the
source (0.7, 0.3, 0.5, 0.2, 0.1, 3, 1, 10, 100, 5) are all exactly
representable, so the rational model differs from IEEE doubles only by
accumulated representation error of sums, which none of the properties
below depend on.  Fallible dictionary key access and Python name-resolution
failure are modelled with `Except PyError`.
-/

namespace AutoTriage

/-- Errors the Python interpreter can raise while the router runs:
`KeyError` for a missing dictionary key and `NameError` for an unbound
identifier. -/
inductive PyError where
  | keyError : String → PyError
  | nameError : String → PyError
deriving DecidableEq

/-- Association-list lookup, modelling `d[k]`/`k in d` on a Python dict
whose entries are kept in insertion order. -/
def assocGet? (k : String) : List (String × β) → Option β
  | [] => none
  | (k0, v) :: rest => if k0 = k then some v else assocGet? k rest

/-- Modelling `defaultdict` update `d[k] = f(d[k])` where a missing key is
first initialised to `d0`: an existing entry is updated in place (keeping
its position), a new key is appended at the end, exactly as CPython keeps
dict insertion order. -/
def bumpWith (k : String) (d0 : β) (f : β → β) : List (String × β) → List (String × β)
  | [] => [(k, f d0)]
  | (k0, v) :: rest => if k0 = k then (k0, f v) :: rest else (k0, v) :: bumpWith k d0 f rest

/-- Insert `x` in front of the first element whose key is ≤ `key x` in a
descending-sorted list.  Used by `sortDescBy` below. -/
def insertDescBy [LinearOrder β] (key : α → β) (x : α) : List α → List α
  | [] => [x]
  | y :: ys => if key y ≤ key x then x :: y :: ys else y :: insertDescBy key x ys

/-- Modelling Python `sorted(l, key=key, reverse=True)`: a stable
descending insertion sort.  CPython's sort is stable and `reverse=True`
still keeps equal-keyed elements in their original relative order, which
is exactly what inserting each earlier element in front of equal keys
achieves. -/
def sortDescBy [LinearOrder β] (key : α → β) : List α → List α
  | [] => []
  | x :: xs => insertDescBy key x (sortDescBy key xs)

/-! ### Character-level text utilities

The router's regular expressions are embedded as explicit scanners over
`List Char`.  They mirror CPython `re` backtracking semantics for the three
concrete patterns used in `_extract_bug_context` (see each definition). -/

/-- Character class `\w` of the Python patterns (ASCII reading: letters,
digits, underscore). -/
def isWordChar (c : Char) : Bool := c.isAlphanum || c = '_'

/-- Character class `[\w\/\-\.]` of the file-path pattern. -/
def isPathChar (c : Char) : Bool := isWordChar c || c = '/' || c = '-' || c = '.'

/-- Case-insensitive (when `ic`) equality of two characters, for the
`re.IGNORECASE` flag. -/
def charEq (ic : Bool) (a b : Char) : Bool :=
  if ic then a.toLower = b.toLower else a = b

/-- Does `needle` occur as a prefix of `hay` (char-by-char, honouring the
ignore-case flag)? -/
def charsStartWith (ic : Bool) : List Char → List Char → Bool
  | [], _ => true
  | _ :: _, [] => false
  | a :: as, b :: bs => charEq ic a b && charsStartWith ic as bs

/-- Alternatives of the extension group `(py|js|ts|java|go|rs|cpp|c|h)` in
source order (the order the regex engine tries them). -/
def extAlternatives : List (List Char) :=
  ["py", "js", "ts", "java", "go", "rs", "cpp", "c", "h"].map String.toList

/-- Try the given extension alternatives in order at the front of `cs`;
return the consumed characters of the first one that matches (the text
the capturing group would hold). -/
def matchExtList (ic : Bool) (cs : List Char) : List (List Char) → Option (List Char)
  | [] => none
  | e :: es => if charsStartWith ic e cs then some (cs.take e.length) else matchExtList ic cs es

/-- Match one of `extAlternatives` at the front of `cs`. -/
def matchExtAt (ic : Bool) (cs : List Char) : Option (List Char) :=
  matchExtList ic cs extAlternatives

/-- Backtracking of the greedy `[\w\/\-\.]+` against the trailing
`\.(ext)`: try the dot position `q` from the end of the class run
downwards (the order a backtracking greedy quantifier yields positions)
and return, on success, the length of the whole match together with the
text captured by the extension group. -/
def trySplitAt (ic : Bool) (run : List Char) : Nat → Option (Nat × List Char)
  | 0 => none
  | q + 1 =>
    match run.get? (q + 1) with
    | some '.' =>
      match matchExtAt ic (run.drop (q + 2)) with
      | some e => some (q + 2 + e.length, e)
      | none => trySplitAt ic run q
    | _ => trySplitAt ic run q

/-- Scanner for `re.findall(r'[\w\/\-\.]+\.(py|js|ts|java|go|rs|cpp|c|h)', text)`
(line 78 of `intelligent_router.py`).  `re.findall` with one capturing
group returns the group's text only, i.e. the bare extension, never the
whole matched path.  At each position the engine matches the greedy
character class, backtracks to the last dot followed by a known extension,
emits the group, and resumes after the match; on failure it advances one
character. -/
def scanFiles (ic : Bool) : Nat → List Char → List String
  | 0, _ => []
  | _, [] => []
  | fuel + 1, c :: rest =>
    if isPathChar c then
      let run := (c :: rest).takeWhile isPathChar
      match trySplitAt ic run (run.length - 1) with
      | some (endPos, e) => String.mk e :: scanFiles ic fuel ((c :: rest).drop endPos)
      | none => scanFiles ic fuel rest
    else scanFiles ic fuel rest

/-- Latest position `q` (tried from the end of the word run downwards, as
greedy backtracking does) at which `word` occurs in `run`; returns the
length `q + word.length` of the resulting match. -/
def tryWordSplit (word : List Char) (run : List Char) : Nat → Option Nat
  | 0 => if charsStartWith false word run then some word.length else none
  | q + 1 =>
    if charsStartWith false word (run.drop (q + 1)) then some (q + 1 + word.length)
    else tryWordSplit word run q

/-- Scanner for `re.findall(r'(\w*Error|\w*Exception)', text)` (line 87 of
`intelligent_router.py`).  The single group spans the whole alternation,
so each emitted token is the full match.  At a given start position the
engine first exhausts `\w*Error` (greedy, so the latest `Error` inside the
word run wins), then tries `\w*Exception`, then advances one character. -/
def scanErrors : Nat → List Char → List String
  | 0, _ => []
  | _, [] => []
  | fuel + 1, c :: rest =>
    if isWordChar c then
      let run := (c :: rest).takeWhile isWordChar
      match tryWordSplit "Error".toList run (run.length - 5) with
      | some n => String.mk (run.take n) :: scanErrors fuel ((c :: rest).drop n)
      | none =>
        match tryWordSplit "Exception".toList run (run.length - 9) with
        | some n => String.mk (run.take n) :: scanErrors fuel ((c :: rest).drop n)
        | none => scanErrors fuel rest
    else scanErrors fuel rest

/-- Case-sensitive substring test (Python `needle in hay` on strings). -/
def containsSub (needle : List Char) : List Char → Bool
  | [] => needle.isEmpty
  | c :: rest => charsStartWith false needle (c :: rest) || containsSub needle rest

/-- Splitting a character list on a separator, matching Python
`str.split(sep)` (so `"".split(sep) == [""]` and separators at the ends
produce empty fields). -/
def splitOnChar (sep : Char) : List Char → List (List Char)
  | [] => [[]]
  | c :: rest =>
    let r := splitOnChar sep rest
    if c = sep then [] :: r
    else
      match r with
      | h :: t => (c :: h) :: t
      | [] => [[c]]

/-- Joining with a separator character, matching Python `sep.join(parts)`. -/
def joinChar (sep : Char) : List (List Char) → List Char
  | [] => []
  | [x] => x
  | x :: xs => x ++ sep :: joinChar sep xs

/-- Joining with a separator string, matching Python `sep.join(parts)`. -/
def joinSep (sep : String) : List String → String
  | [] => ""
  | [x] => x
  | x :: xs => x ++ sep ++ joinSep sep xs

/-! ### `ownership_analyzer.py` -/

/-- One change event of the external change-event source, as the analyzer
consumes it (`ownership_analyzer.py` lines 48–54): the commit author's
e-mail and, from the commit details, the `(filename, changes)` pairs.
The HTTP fetch / pagination / commit-detail cache of lines 95–132 is the
external collaborator of spec §6 and is modelled as this supplied list;
the cache is semantically transparent (it returns the identical payload). -/
structure ChangeEvent where
  author : String
  files : List (String × Nat)
deriving DecidableEq

/-- Dataclass `FileOwnership` (`ownership_analyzer.py` lines 18–25).
`primary_owner` is `Option String` because line 82 stores Python `None`
for an empty contributor list.  `last_modified` is a timestamp modelled as
an integer. -/
structure FileOwnership where
  file_path : String
  primary_owner : Option String
  secondary_owners : List String
  last_modified : Int
  modification_count : Nat
  complexity_score : ℚ
deriving DecidableEq

/-- Dictionary returned by `analyze_repository_ownership`
(`ownership_analyzer.py` lines 89–93). -/
structure OwnershipData where
  file_ownership : List (String × FileOwnership)
  developer_activity : List (String × Nat)
  repository_experts : List (String × List (String × Nat))
deriving DecidableEq

/-- Per-file accumulator state of the event loop
(`ownership_analyzer.py` lines 44–69): the per-file per-author change
counts, the global per-author activity, and per-file complexity data
(total changes and the distinct contributors; the `avg_change_size` field
initialised at line 65 is never updated nor read and is omitted; the
Python contributor `set` is kept as a deduplicated list since only its
cardinality is consumed, at line 152). -/
structure AnalyzerAcc where
  file_ownership : List (String × List (String × Nat))
  developer_activity : List (String × Nat)
  file_complexity : List (String × (Nat × List String))
deriving DecidableEq

/-- Inner body of the event loop (`ownership_analyzer.py` lines 48–69):
one `file_info` of one commit updates the three accumulators. -/
def processFileInfo (author : String) (acc : AnalyzerAcc) (fi : String × Nat) : AnalyzerAcc :=
  { file_ownership := bumpWith fi.1 [] (bumpWith author 0 (· + fi.2)) acc.file_ownership
    developer_activity := bumpWith author 0 (· + fi.2) acc.developer_activity
    file_complexity :=
      bumpWith fi.1 (0, []) (fun cd => (cd.1 + fi.2, if author ∈ cd.2 then cd.2 else cd.2 ++ [author]))
        acc.file_complexity }

/-- One commit of the event loop (`ownership_analyzer.py` lines 48–69). -/
def processEvent (acc : AnalyzerAcc) (e : ChangeEvent) : AnalyzerAcc :=
  e.files.foldl (processFileInfo e.author) acc

/-- Method `_calculate_complexity_score` (`ownership_analyzer.py` lines
149–158), with the file's accumulated data already split into its two
consumed components. -/
def calculate_complexity_score (total_changes : Nat) (unique_contributors : Nat) : ℚ :=
  let base_score := min ((total_changes : ℚ) / 100) 1
  let contributor_factor := min ((unique_contributors : ℚ) / 5) 1
  base_score * (7 / 10) + contributor_factor * (3 / 10)

/-- Directory key of `_identify_experts`
(`ownership_analyzer.py` line 166): `'/'.join(file_path.split('/')[:-1])`. -/
def dirOf (fp : String) : String :=
  String.mk (joinChar '/' ((splitOnChar '/' fp.toList).dropLast))

/-- Extension key of `_identify_experts` (`ownership_analyzer.py` line
167): `file_path.split('.')[-1] if '.' in file_path else 'unknown'`. -/
def extOf (fp : String) : String :=
  if fp.toList.contains '.' then String.mk ((splitOnChar '.' fp.toList).getLast?.getD [])
  else "unknown"

/-- Accumulation phase of `_identify_experts`
(`ownership_analyzer.py` lines 162–171): the `experts` defaultdict after
the loop, crediting every contributor of a file under both its directory
key and its `*.ext` key.  Entries keep first-encounter (insertion)
order. -/
def expertsAcc (file_ownership : List (String × List (String × Nat))) :
    List (String × List (String × Nat)) :=
  file_ownership.foldl
    (fun ex p =>
      let directory := dirOf p.1
      let file_ext := extOf p.1
      p.2.foldl
        (fun ex2 c =>
          bumpWith ("*." ++ file_ext) [] (bumpWith c.1 0 (· + c.2))
            (bumpWith directory [] (bumpWith c.1 0 (· + c.2)) ex2))
        ex)
    []

/-- Method `_identify_experts` (`ownership_analyzer.py` lines 160–182);
its `developer_activity` parameter is accepted and never read, as in the
source.  Ranks each domain's accumulated contributors (lines 174–180)
with the stable descending sort and keeps the top 3. -/
def identify_experts (_developer_activity : List (String × Nat))
    (file_ownership : List (String × List (String × Nat))) :
    List (String × List (String × Nat)) :=
  (expertsAcc file_ownership).map (fun p => (p.1, (sortDescBy Prod.snd p.2).take 3))

/-- Field `last_modified` via `_get_file_last_modified`
(`ownership_analyzer.py` lines 134–147): the external per-file
most-recent-commit query is the supplied `fetchLM`; on no data the method
falls back to `datetime.now()`, supplied as `now`. -/
def get_file_last_modified (fetchLM : String → Option Int) (now : Int) (fp : String) : Int :=
  (fetchLM fp).getD now

/-- Method `analyze_repository_ownership` (`ownership_analyzer.py` lines
36–93).  The paginated commit fetch of lines 39–41 is the supplied
`events` list; the loop of lines 48–69 folds the accumulators; lines
71–87 build the per-file records with a stable descending sort on
accumulated changes (`sorted(..., key=lambda x: x[1], reverse=True)`);
lines 89–93 assemble the returned dictionary. -/
def analyze_repository_ownership (events : List ChangeEvent)
    (fetchLM : String → Option Int) (now : Int) : OwnershipData :=
  let acc := events.foldl processEvent ⟨[], [], []⟩
  { file_ownership := acc.file_ownership.map (fun p =>
      let sorted_contributors := sortDescBy Prod.snd p.2
      (p.1,
        { file_path := p.1
          primary_owner := sorted_contributors.head?.map Prod.fst
          secondary_owners := ((sorted_contributors.drop 1).take 2).map Prod.fst
          last_modified := get_file_last_modified fetchLM now p.1
          modification_count := (p.2.map Prod.snd).sum
          complexity_score :=
            let cd := (assocGet? p.1 acc.file_complexity).getD (0, [])
            calculate_complexity_score cd.1 cd.2.length }))
    developer_activity := acc.developer_activity
    repository_experts := identify_experts acc.developer_activity acc.file_ownership }

/-! ### `intelligent_router.py` -/

/-- Incoming `bug_data` dictionary (`intelligent_router.py` lines 19–27).
Optional presence of a key is an `Option`; `labels` is documented but
never read by the router and is omitted. -/
structure BugData where
  title : Option String
  description : Option String
  repository : Option String
  affected_files : Option (List String) := none
  stack_trace : Option String := none
  priority : Option String := none
deriving DecidableEq

/-- Extracted context (`intelligent_router.py` lines 66–73), restricted
to the entries the rest of the router reads.  `mentioned_functions`,
`mentioned_modules` and `keywords` are computed (or initialised) at lines
67–84 but never consumed by scoring, labels or complexity, and are
omitted. -/
structure BugContext where
  mentioned_files : List String
  error_types : List String
  affected_areas : List String
deriving DecidableEq

/-- Area keyword table (`intelligent_router.py` lines 96–104), in source
order. -/
def area_keywords : List (String × List String) :=
  [("authentication", ["auth", "login", "token", "jwt", "oauth"]),
   ("database", ["sql", "query", "database", "db", "migration"]),
   ("api", ["api", "endpoint", "rest", "graphql", "request"]),
   ("frontend", ["ui", "component", "render", "dom", "css"]),
   ("backend", ["server", "service", "worker", "job", "queue"]),
   ("security", ["security", "vulnerability", "xss", "csrf", "injection"]),
   ("performance", ["slow", "performance", "memory", "cpu", "optimization"])]

/-- Keyword pass of `_extract_bug_context` (`intelligent_router.py` lines
106–109): an area is appended when any of its keywords occurs as a
substring of the lower-cased title+description text. -/
def affectedAreasOf (text : List Char) : List String :=
  let text_lower := text.map Char.toLower
  area_keywords.foldl
    (fun acc p => if p.2.any (fun kw => containsSub kw.toList text_lower) then acc ++ [p.1] else acc)
    []

/-- Method `_extract_bug_context` (`intelligent_router.py` lines 64–111).
Accessing the mandatory `title` and `description` keys raises `KeyError`
when absent (line 75, in that evaluation order).  The file-path pattern
runs with `re.IGNORECASE` on title+description (line 79) but without it on
the stack trace (line 92); `if bug_data.get('stack_trace'):` is Python
truthiness, so an empty stack-trace string is skipped. -/
def extract_bug_context (bug : BugData) : Except PyError BugContext :=
  match bug.title with
  | none => .error (.keyError "title")
  | some t =>
    match bug.description with
    | none => .error (.keyError "description")
    | some d =>
      let text := (t ++ " " ++ d).toList
      let stack_files :=
        match bug.stack_trace with
        | some st => if st.isEmpty then [] else scanFiles false st.toList.length st.toList
        | none => []
      .ok
        { mentioned_files := scanFiles true text.length text ++ stack_files
          error_types := scanErrors text.length text
          affected_areas := affectedAreasOf text }

/-- Per-developer accumulator of the `candidates` defaultdict
(`intelligent_router.py` lines 121–127); `relevance_score` is initialised
and never touched, and is omitted. -/
structure CandAcc where
  ownership_score : ℚ := 0
  expertise_score : ℚ := 0
  files_owned : List String := []
  areas_of_expertise : List String := []
deriving DecidableEq

/-- Default value the `candidates` defaultdict creates on first access
(`intelligent_router.py` lines 121–127). -/
def candDefault : CandAcc := {}

/-- Entry of the `potential_assignees` list (`intelligent_router.py`
lines 158–165).  The `final_score` key is added later by
`_rank_assignees` (line 186); before that point it is absent, which is
modelled as the placeholder `0` the constructor installs. -/
structure Candidate where
  developer : String
  total_score : ℚ
  ownership_score : ℚ
  expertise_score : ℚ
  files_owned : List String
  areas_of_expertise : List String
  final_score : ℚ := 0
deriving DecidableEq

/-- Credit applied to the primary owner of a relevant file
(`intelligent_router.py` lines 140–141): `complexity_score * 3` and the
path appended to `files_owned`. -/
def primaryUpdate (fo : FileOwnership) (fp : String) (c : CandAcc) : CandAcc :=
  { c with
    ownership_score := c.ownership_score + fo.complexity_score * 3
    files_owned := c.files_owned ++ [fp] }

/-- Credit applied to each secondary owner of a relevant file
(`intelligent_router.py` lines 143–145): `complexity_score * 1` and the
path appended to `files_owned`. -/
def secondaryUpdate (fo : FileOwnership) (fp : String) (c : CandAcc) : CandAcc :=
  { c with
    ownership_score := c.ownership_score + fo.complexity_score * 1
    files_owned := c.files_owned ++ [fp] }

/-- Credit applied to a ranked domain expert
(`intelligent_router.py` lines 151–152): `score * 0.5` and the area
appended to `areas_of_expertise`. -/
def expertUpdate (area : String) (e : String × Nat) (c : CandAcc) : CandAcc :=
  { c with
    expertise_score := c.expertise_score + (e.2 : ℚ) * (1 / 2)
    areas_of_expertise := c.areas_of_expertise ++ [area] }

/-- File-ownership pass of `_find_potential_assignees`
(`intelligent_router.py` lines 134–145) for a single relevant file:
look the path up in the ownership map; credit the primary owner (Python
`if primary:` is string truthiness, so `None` and the empty string are
both skipped) with `primaryUpdate` and each secondary owner with
`secondaryUpdate`. -/
def scoreFile (own : OwnershipData) (m : List (String × CandAcc)) (fp : String) :
    List (String × CandAcc) :=
  match assocGet? fp own.file_ownership with
  | none => m
  | some fo =>
    let m1 :=
      match fo.primary_owner with
      | some p => if p = "" then m else bumpWith p candDefault (primaryUpdate fo fp) m
      | none => m
    fo.secondary_owners.foldl
      (fun acc s => bumpWith s candDefault (secondaryUpdate fo fp) acc) m1

/-- Domain-expertise pass of `_find_potential_assignees`
(`intelligent_router.py` lines 148–152) for a single affected area: each
of the (up to 3) ranked experts of the area gains `expertUpdate`. -/
def scoreArea (own : OwnershipData) (m : List (String × CandAcc)) (area : String) :
    List (String × CandAcc) :=
  match assocGet? area own.repository_experts with
  | none => m
  | some experts =>
    (experts.take 3).foldl
      (fun acc e => bumpWith e.1 candDefault (expertUpdate area e) acc) m

/-- Accumulation phase of `_find_potential_assignees`
(`intelligent_router.py` lines 121–152): the relevant files are the plain
list concatenation `affected_files + context['mentioned_files']`
(line 133), folded through `scoreFile`, then the affected areas through
`scoreArea`. -/
def accumulate_candidates (context : BugContext) (own : OwnershipData)
    (affected_files : List String) : List (String × CandAcc) :=
  context.affected_areas.foldl (scoreArea own)
    ((affected_files ++ context.mentioned_files).foldl (scoreFile own) [])

/-- Conversion phase of `_find_potential_assignees`
(`intelligent_router.py` lines 154–168): keep developers with a positive
ownership or expertise score, in dict insertion order, and package them
as assignee records with `total_score` the sum of the two scores. -/
def find_potential_assignees_body (context : BugContext) (own : OwnershipData)
    (affected_files : List String) : List Candidate :=
  ((accumulate_candidates context own affected_files).filter
      (fun kv => decide (0 < kv.2.ownership_score) || decide (0 < kv.2.expertise_score))).map
    (fun kv =>
      { developer := kv.1
        total_score := kv.2.ownership_score + kv.2.expertise_score
        ownership_score := kv.2.ownership_score
        expertise_score := kv.2.expertise_score
        files_owned := kv.2.files_owned
        areas_of_expertise := kv.2.areas_of_expertise })

/-- Names bound in the module namespace of `intelligent_router.py`: its
imports (lines 2–6: the four `typing` names, `datetime`, `timedelta`, the
two names imported from `.ownership_analyzer`, `re`, `json`) and its sole
top-level definition.  Python resolves a bare identifier against this
namespace and then the builtins; `defaultdict` is in neither (it lives in
`collections`, which this module never imports, unlike
`ownership_analyzer.py` line 5). -/
def intelligentRouterModuleNames : List String :=
  ["Dict", "List", "Optional", "Tuple", "datetime", "timedelta",
   "CodeOwnershipAnalyzer", "Developer", "re", "json", "IntelligentBugRouter"]

/-- Method `_find_potential_assignees` (`intelligent_router.py` lines
113–168).  Its first statement, `candidates = defaultdict(...)` (line
121), must resolve the name `defaultdict`; when the module namespace does
not bind it the statement raises `NameError` and the body below it never
runs. -/
def find_potential_assignees (context : BugContext) (own : OwnershipData)
    (affected_files : List String) : Except PyError (List Candidate) :=
  if "defaultdict" ∈ intelligentRouterModuleNames then
    .ok (find_potential_assignees_body context own affected_files)
  else .error (.nameError "defaultdict")

/-- Priority multiplier of `_rank_assignees` (`intelligent_router.py`
lines 173–182): `bug_data.get('priority', 'medium')` looked up in the
multiplier table with default `1.0`. -/
def priority_multiplier (priority : Option String) : ℚ :=
  let p := priority.getD "medium"
  if p = "critical" then 3 / 2
  else if p = "high" then 6 / 5
  else if p = "medium" then 1
  else if p = "low" then 4 / 5
  else 1

/-- Method `_rank_assignees` (`intelligent_router.py` lines 170–188):
store `final_score = total_score * multiplier` on every assignee and sort
descending by it (`sorted(..., reverse=True)`, stable). -/
def rank_assignees (potential_assignees : List Candidate) (priority : Option String) :
    List Candidate :=
  sortDescBy Candidate.final_score
    (potential_assignees.map
      (fun a => { a with final_score := a.total_score * priority_multiplier priority }))

/-- Method `_is_developer_available` (`intelligent_router.py` lines
208–217): the stubbed availability oracle always answers `true`. -/
def is_developer_available (_developer_email : String) : Bool := true

/-- Method `_select_final_assignee` (`intelligent_router.py` lines
190–206), parametrised by the availability oracle it consults (the method
call of line 202): an empty ranking yields `none`; otherwise the `for`
loop over `ranked_assignees[:3]` returns the first available candidate
(`List.find?`), and when it falls through, line 206 returns the top
candidate regardless of availability. -/
def select_final_assignee (avail : String → Bool) (ranked_assignees : List Candidate) :
    Option Candidate :=
  match ranked_assignees with
  | [] => none
  | top :: _ =>
    match (ranked_assignees.take 3).find? (fun a => avail a.developer) with
    | some a => some a
    | none => some top

/-- Rounding to two decimal places over `ℚ`, modelling Python
`round(x, 2)` (`intelligent_router.py` line 234); `round` on `ℚ` is
round-to-nearest, which coincides with the float rounding except exactly
at `.xx5` midpoints, which none of the properties below depend on. -/
def round2 (q : ℚ) : ℚ := ((round (q * 100) : ℤ) : ℚ) / 100

/-- Method `_calculate_confidence` (`intelligent_router.py` lines
219–234); the `context` parameter is accepted and never read, as in the
source. -/
def calculate_confidence (assignee : Option Candidate) (_context : BugContext) : ℚ :=
  match assignee with
  | none => 0
  | some a =>
    let base_confidence := min (a.final_score / 10) 1
    let b1 := if a.files_owned.isEmpty then base_confidence else min (base_confidence + 2 / 10) 1
    let b2 := if a.areas_of_expertise.isEmpty then b1 else min (b1 + 1 / 10) 1
    round2 b2

/-- Method `_generate_routing_reason` (`intelligent_router.py` lines
236–253). -/
def generate_routing_reason (assignee : Option Candidate) (_context : BugContext) : String :=
  match assignee with
  | none => "No clear owner identified. Escalating to team lead."
  | some a =>
    let reasons :=
      (if a.files_owned.isEmpty then []
       else ["Primary owner of " ++ toString a.files_owned.length ++ " affected files"]) ++
      (if a.areas_of_expertise.isEmpty then []
       else ["Subject matter expert in: " ++ joinSep ", " a.areas_of_expertise]) ++
      (if 5 < a.ownership_score then ["High code ownership score in affected areas"] else [])
    if reasons.isEmpty then "Best available match based on repository activity"
    else joinSep "; " reasons

/-- Method `_suggest_labels` (`intelligent_router.py` lines 255–267). -/
def suggest_labels (context : BugContext) : List String :=
  context.affected_areas.map (fun area => "area:" ++ area) ++
    (if context.error_types.isEmpty then [] else ["bug:error"])

/-- Method `_estimate_complexity` (`intelligent_router.py` lines
269–289); the `ownership_data` parameter is accepted and never read, as
in the source. -/
def estimate_complexity (context : BugContext) (_ownership_data : OwnershipData) : String :=
  let complexity_score : ℚ :=
    (context.mentioned_files.length : ℚ) * (1 / 2) +
      (context.affected_areas.length : ℚ) * 1 + (context.error_types.length : ℚ) * (3 / 10)
  if complexity_score < 1 then "low"
  else if complexity_score < 3 then "medium"
  else if complexity_score < 5 then "high"
  else "critical"

/-- Dictionary literal `routing_decision` (`intelligent_router.py` lines
52–60). -/
structure RoutingDecision where
  assigned_to : Option Candidate
  backup_assignees : List Candidate
  confidence_score : ℚ
  routing_reason : String
  escalation_needed : Bool
  suggested_labels : List String
  estimated_complexity : String
deriving DecidableEq

/-- Assembly of the routing decision (`intelligent_router.py` lines
52–60): `backup_assignees` is the slice `ranked_assignees[1:3]` and
`escalation_needed` is `final_assignee is None`. -/
def makeRoutingDecision (final_assignee : Option Candidate) (ranked_assignees : List Candidate)
    (context : BugContext) (ownership_data : OwnershipData) : RoutingDecision :=
  { assigned_to := final_assignee
    backup_assignees := (ranked_assignees.drop 1).take 2
    confidence_score := calculate_confidence final_assignee context
    routing_reason := generate_routing_reason final_assignee context
    escalation_needed := final_assignee.isNone
    suggested_labels := suggest_labels context
    estimated_complexity := estimate_complexity context ownership_data }

instance {ε α : Type} [DecidableEq ε] [DecidableEq α] : DecidableEq (Except ε α) := fun a b =>
  match a, b with
  | .ok x, .ok y => decidable_of_iff (x = y) ⟨fun h => h ▸ rfl, fun h => Except.ok.inj h⟩
  | .ok _, .error _ => isFalse (fun h => Except.noConfusion h)
  | .error _, .ok _ => isFalse (fun h => Except.noConfusion h)
  | .error x, .error y => decidable_of_iff (x = y) ⟨fun h => h ▸ rfl, fun h => Except.error.inj h⟩

/-- Outcome of one `route_bug_report` call: the returned decision or the
Python error that escaped, together with the repositories for which a
change-event fetch was started (ownership analysis triggers the fetch of
`ownership_analyzer.py` lines 95–117). -/
structure RouterRun where
  result : Except PyError RoutingDecision
  fetched_repos : List String
deriving DecidableEq

/-- Method `route_bug_report` (`intelligent_router.py` lines 14–62), in
source statement order: `bug_data['repository']` (line 30, `KeyError`
when absent, before any fetch), ownership analysis (line 33, the fetch),
context extraction (line 36, `KeyError` on missing title/description),
candidate discovery (line 39, `NameError`, see
`find_potential_assignees`), ranking, selection with the stub
availability oracle, and decision assembly. -/
def route_bug_report (events : List ChangeEvent) (fetchLM : String → Option Int) (now : Int)
    (bug : BugData) : RouterRun :=
  match bug.repository with
  | none => ⟨.error (.keyError "repository"), []⟩
  | some repo_name =>
    let ownership_data := analyze_repository_ownership events fetchLM now
    match extract_bug_context bug with
    | .error e => ⟨.error e, [repo_name]⟩
    | .ok context =>
      match find_potential_assignees context ownership_data (bug.affected_files.getD []) with
      | .error e => ⟨.error e, [repo_name]⟩
      | .ok potential_assignees =>
        let ranked_assignees := rank_assignees potential_assignees bug.priority
        let final_assignee := select_final_assignee is_developer_available ranked_assignees
        ⟨.ok (makeRoutingDecision final_assignee ranked_assignees context ownership_data),
          [repo_name]⟩

/-- Per-file ownership contribution a developer `d` receives from one
occurrence of a relevant file `fp` in the scoring loop of
`_find_potential_assignees` (`intelligent_router.py` lines 134–145):
`complexity_score * 3` as a (non-empty-named) primary owner plus
`complexity_score * 1` per listing among the secondary owners. -/
def fileContribution (d : String) (own : OwnershipData) (fp : String) : ℚ :=
  match assocGet? fp own.file_ownership with
  | none => 0
  | some fo =>
    (match fo.primary_owner with
     | some p => if p = "" then 0 else if p = d then fo.complexity_score * 3 else 0
     | none => 0) +
    ((fo.secondary_owners.filter (fun s => decide (s = d))).length : ℚ) *
      (fo.complexity_score * 1)

/-- Ownership score a developer currently holds in the `candidates`
accumulator (`0` when absent, the defaultdict's initial value). -/
def ownScoreOf (d : String) (m : List (String × CandAcc)) : ℚ :=
  ((assocGet? d m).getD candDefault).ownership_score

/-- Pre-rounding value of `_calculate_confidence` for a present assignee
(`intelligent_router.py` lines 224–232): the capped base plus the two
independently capped boosts. -/
def confInner (a : Candidate) : ℚ :=
  let base_confidence := min (a.final_score / 10) 1
  let b1 :=
    if a.files_owned.isEmpty then base_confidence else min (base_confidence + 2 / 10) 1
  if a.areas_of_expertise.isEmpty then b1 else min (b1 + 1 / 10) 1

/-- Invariant of every `candidates` entry: scores are non-negative and a
positive score was necessarily accompanied by at least one recorded file
(resp. area). -/
def accInv (c : CandAcc) : Prop :=
  0 ≤ c.ownership_score ∧ 0 ≤ c.expertise_score ∧
    (0 < c.ownership_score → c.files_owned ≠ []) ∧
    (0 < c.expertise_score → c.areas_of_expertise ≠ [])

/-! ## Shared lemmas -/

theorem round2_mono {p q : ℚ} (h : p ≤ q) : round2 p ≤ round2 q := by
  unfold round2
  have hr : round (p * 100) ≤ round (q * 100) := by
    rw [round_eq, round_eq]
    exact Int.floor_le_floor (by linarith)
  have hc : ((round (p * 100) : ℤ) : ℚ) ≤ ((round (q * 100) : ℤ) : ℚ) := Int.cast_le.mpr hr
  linarith

theorem round2_zero : round2 0 = 0 := by
  unfold round2
  norm_num

theorem round2_one : round2 1 = 1 := by
  unfold round2
  have h : (1 : ℚ) * 100 = ((100 : ℤ) : ℚ) := by norm_num
  rw [h, round_intCast]
  norm_num

theorem round2_tenth : round2 (1 / 10) = 1 / 10 := by
  unfold round2
  have h : (1 / 10 : ℚ) * 100 = ((10 : ℤ) : ℚ) := by norm_num
  rw [h, round_intCast]
  norm_num

theorem round2_nonneg {q : ℚ} (h : 0 ≤ q) : 0 ≤ round2 q := by
  have := round2_mono h
  rwa [round2_zero] at this

theorem round2_le_one {q : ℚ} (h : q ≤ 1) : round2 q ≤ 1 := by
  have := round2_mono h
  rwa [round2_one] at this

theorem complexity_nonneg (tc uc : Nat) : 0 ≤ calculate_complexity_score tc uc := by
  unfold calculate_complexity_score
  have h1 : (0 : ℚ) ≤ min ((tc : ℚ) / 100) 1 := le_min (by positivity) (by norm_num)
  have h2 : (0 : ℚ) ≤ min ((uc : ℚ) / 5) 1 := le_min (by positivity) (by norm_num)
  nlinarith

theorem complexity_le_one (tc uc : Nat) : calculate_complexity_score tc uc ≤ 1 := by
  unfold calculate_complexity_score
  have h1 : min ((tc : ℚ) / 100) 1 ≤ 1 := min_le_right _ _
  have h2 : min ((uc : ℚ) / 5) 1 ≤ 1 := min_le_right _ _
  have h3 : (0 : ℚ) ≤ min ((tc : ℚ) / 100) 1 := le_min (by positivity) (by norm_num)
  have h4 : (0 : ℚ) ≤ min ((uc : ℚ) / 5) 1 := le_min (by positivity) (by norm_num)
  nlinarith

/-! ## Claim C8 -/

/-- C8: for every accumulated file data (`total_changes ≥ 0`, contributor
count ≥ 0, automatic for `Nat`), the complexity score equals
`0.7 × min(total_changes/100, 1) + 0.3 × min(unique_contributors/5, 1)`,
always lies in `[0, 1]`, and equals exactly `1` once both saturating
sub-terms saturate (`total_changes ≥ 100` and `unique_contributors ≥ 5`). -/
theorem C8_complexity_score_formula_bounds_saturation :
    ∀ tc uc : Nat,
      calculate_complexity_score tc uc =
        (7 / 10) * min ((tc : ℚ) / 100) 1 + (3 / 10) * min ((uc : ℚ) / 5) 1 ∧
      0 ≤ calculate_complexity_score tc uc ∧ calculate_complexity_score tc uc ≤ 1 ∧
      (100 ≤ tc → 5 ≤ uc → calculate_complexity_score tc uc = 1) := by
  intro tc uc
  refine ⟨by unfold calculate_complexity_score; ring, complexity_nonneg tc uc,
    complexity_le_one tc uc, ?_⟩
  intro htc huc
  unfold calculate_complexity_score
  have h1 : min ((tc : ℚ) / 100) 1 = 1 := by
    refine min_eq_right ?_
    rw [le_div_iff₀ (by norm_num : (0 : ℚ) < 100)]
    calc (1 : ℚ) * 100 = ((100 : ℕ) : ℚ) := by norm_num
    _ ≤ (tc : ℚ) := by exact_mod_cast htc
  have h2 : min ((uc : ℚ) / 5) 1 = 1 := by
    refine min_eq_right ?_
    rw [le_div_iff₀ (by norm_num : (0 : ℚ) < 5)]
    calc (1 : ℚ) * 5 = ((5 : ℕ) : ℚ) := by norm_num
    _ ≤ (uc : ℚ) := by exact_mod_cast huc
  rw [h1, h2]
  norm_num

/-- C8 witness: the spec's own test values, 10000 changes and 500
contributors, saturate both sub-terms and give exactly 1. -/
theorem C8_complexity_score_witness : calculate_complexity_score 10000 500 = 1 :=
  (C8_complexity_score_formula_bounds_saturation 10000 500).2.2.2 (by decide) (by decide)

/-! ## Claim C7 -/

theorem calculate_confidence_some (a : Candidate) (ctx : BugContext) :
    calculate_confidence (some a) ctx = round2 (confInner a) := rfl

theorem min1_add_mono {x y c : ℚ} (h : x ≤ y) : min (x + c) 1 ≤ min (y + c) 1 :=
  min_le_min (by linarith) le_rfl

theorem confInner_le_one (a : Candidate) : confInner a ≤ 1 := by
  unfold confInner
  by_cases h2 : a.areas_of_expertise.isEmpty <;> by_cases h1 : a.files_owned.isEmpty <;>
      simp only [h1, h2, if_true, if_false, Bool.false_eq_true, ite_true, ite_false] <;>
    exact min_le_right _ _

theorem confInner_nonneg {a : Candidate} (h : 0 ≤ a.final_score) : 0 ≤ confInner a := by
  unfold confInner
  have hb0 : 0 ≤ min (a.final_score / 10) 1 :=
    le_min (div_nonneg h (by norm_num)) (by norm_num)
  by_cases h2 : a.areas_of_expertise.isEmpty <;> by_cases h1 : a.files_owned.isEmpty <;>
      simp only [h1, h2, if_true, if_false, Bool.false_eq_true, ite_true, ite_false] <;>
    first
      | exact hb0
      | (refine le_min (by linarith [le_min (div_nonneg h
          (by norm_num : (0:ℚ) ≤ 10)) (by norm_num : (0:ℚ) ≤ 1)]) (by norm_num))
      | (refine le_min ?_ (by norm_num); positivity)

/-- C7: the confidence score is 0 with no assignee; with an assignee it is
the rounded capped-base-plus-capped-boosts formula; for the non-negative
final scores the pipeline produces it lies in `[0, 1]`; and it is
monotonically non-decreasing in `final_score`, in `files_owned`
non-emptiness and in `areas_of_expertise` non-emptiness, holding the other
fields fixed. -/
theorem C7_confidence_formula_bounds_monotonicity :
    (∀ ctx, calculate_confidence none ctx = 0) ∧
    (∀ (a : Candidate) ctx, calculate_confidence (some a) ctx =
      round2
        (if a.areas_of_expertise.isEmpty then
          (if a.files_owned.isEmpty then min (a.final_score / 10) 1
           else min (min (a.final_score / 10) 1 + 2 / 10) 1)
         else
          min ((if a.files_owned.isEmpty then min (a.final_score / 10) 1
                else min (min (a.final_score / 10) 1 + 2 / 10) 1) + 1 / 10) 1)) ∧
    (∀ (a : Candidate) ctx, 0 ≤ a.final_score →
      0 ≤ calculate_confidence (some a) ctx ∧ calculate_confidence (some a) ctx ≤ 1) ∧
    (∀ (a : Candidate) ctx (s t : ℚ), s ≤ t →
      calculate_confidence (some { a with final_score := s }) ctx ≤
        calculate_confidence (some { a with final_score := t }) ctx) ∧
    (∀ (a : Candidate) ctx,
      calculate_confidence (some { a with files_owned := [] }) ctx ≤
        calculate_confidence (some a) ctx) ∧
    (∀ (a : Candidate) ctx,
      calculate_confidence (some { a with areas_of_expertise := [] }) ctx ≤
        calculate_confidence (some a) ctx) := by
  have hsome : ∀ (a : Candidate) ctx,
      calculate_confidence (some a) ctx = round2 (confInner a) := fun _ _ => rfl
  refine ⟨fun _ => rfl, ?_, ?_, ?_, ?_, ?_⟩
  · intro a ctx
    rw [hsome]
    unfold confInner
    by_cases h2 : a.areas_of_expertise.isEmpty <;> by_cases h1 : a.files_owned.isEmpty <;>
      simp [h1, h2]
  · intro a ctx h
    rw [hsome]
    exact ⟨round2_nonneg (confInner_nonneg h), round2_le_one (confInner_le_one a)⟩
  · intro a ctx s t hst
    rw [hsome, hsome]
    refine round2_mono ?_
    unfold confInner
    have hbase : min (s / 10) 1 ≤ min (t / 10) 1 := min_le_min (by linarith) le_rfl
    by_cases h2 : a.areas_of_expertise.isEmpty <;> by_cases h1 : a.files_owned.isEmpty <;>
        simp only [h1, h2, if_true, if_false, Bool.false_eq_true, ite_true, ite_false] <;>
      first
        | exact hbase
        | exact min1_add_mono hbase
        | exact min1_add_mono (min1_add_mono hbase)
  · intro a ctx
    rw [hsome, hsome]
    refine round2_mono ?_
    unfold confInner
    have hb1 : min (a.final_score / 10) 1 ≤ 1 := min_le_right _ _
    have hstep : min (a.final_score / 10) 1 ≤
        (if a.files_owned.isEmpty then min (a.final_score / 10) 1
         else min (min (a.final_score / 10) 1 + 2 / 10) 1) := by
      by_cases h1 : a.files_owned.isEmpty <;>
          simp only [h1, if_true, if_false, Bool.false_eq_true, ite_true, ite_false] <;>
        first
          | exact le_rfl
          | exact le_min (by linarith) hb1
    by_cases h2 : a.areas_of_expertise.isEmpty <;>
        simp only [h2, if_true, if_false, Bool.false_eq_true, ite_true, ite_false,
          List.isEmpty_nil] <;>
      first
        | exact hstep
        | exact min1_add_mono hstep
  · intro a ctx
    rw [hsome, hsome]
    refine round2_mono ?_
    unfold confInner
    have hb1le : (if a.files_owned.isEmpty then min (a.final_score / 10) 1
        else min (min (a.final_score / 10) 1 + 2 / 10) 1) ≤ 1 := by
      by_cases h1 : a.files_owned.isEmpty <;>
          simp only [h1, if_true, if_false, Bool.false_eq_true, ite_true, ite_false] <;>
        exact min_le_right _ _
    by_cases h2 : a.areas_of_expertise.isEmpty <;>
        simp only [h2, if_true, if_false, Bool.false_eq_true, ite_true, ite_false,
          List.isEmpty_nil] <;>
      first
        | exact le_rfl
        | exact le_min (by linarith) hb1le

/-- C7 witness: the monotonicity and bound conjuncts applied at a concrete
candidate with final score 4 (and 3 ≤ 4 for monotonicity). -/
theorem C7_confidence_witness :
    (0 ≤ calculate_confidence
        (some ⟨"dev", 4, 4, 0, ["a.py"], [], 4⟩) ⟨[], [], []⟩ ∧
      calculate_confidence (some ⟨"dev", 4, 4, 0, ["a.py"], [], 4⟩) ⟨[], [], []⟩ ≤ 1) ∧
    calculate_confidence (some ⟨"dev", 4, 4, 0, ["a.py"], [], 3⟩) ⟨[], [], []⟩ ≤
      calculate_confidence (some ⟨"dev", 4, 4, 0, ["a.py"], [], 4⟩) ⟨[], [], []⟩ :=
  ⟨C7_confidence_formula_bounds_monotonicity.2.2.1 ⟨"dev", 4, 4, 0, ["a.py"], [], 4⟩
      ⟨[], [], []⟩ (by norm_num),
    C7_confidence_formula_bounds_monotonicity.2.2.2.1 ⟨"dev", 4, 4, 0, ["a.py"], [], 0⟩
      ⟨[], [], []⟩ 3 4 (by norm_num)⟩

/-! ## Claim C6 -/

/-- C6: selection returns the first of the top 3 ranked candidates that
the availability oracle accepts, falling back to the top-ranked candidate
when none of the three is available (`Option.orElse` of the `find?` over
`take 3` with the head); it returns `none` exactly when the ranked list is
empty; and the assembled decision's `escalation_needed` equals `true`
exactly when the selected assignee is `none`. -/
theorem C6_selection_first_available_fallback_escalation :
    (∀ (avail : String → Bool) (ranked : List Candidate),
      select_final_assignee avail ranked =
        ((ranked.take 3).find? (fun a => avail a.developer)).orElse (fun _ => ranked.head?)) ∧
    (∀ (avail : String → Bool) (ranked : List Candidate),
      select_final_assignee avail ranked = none ↔ ranked = []) ∧
    (∀ (avail : String → Bool) (ranked : List Candidate) (ctx : BugContext)
        (own : OwnershipData),
      ((makeRoutingDecision (select_final_assignee avail ranked) ranked ctx
            own).escalation_needed = true ↔
        select_final_assignee avail ranked = none)) := by
  have hchar : ∀ (avail : String → Bool) (ranked : List Candidate),
      select_final_assignee avail ranked =
        ((ranked.take 3).find? (fun a => avail a.developer)).orElse (fun _ => ranked.head?) := by
    intro avail ranked
    cases ranked with
    | nil => rfl
    | cons top rest =>
      unfold select_final_assignee
      cases hf : ((top :: rest).take 3).find? (fun a => avail a.developer) <;>
        simp [Option.orElse]
  refine ⟨hchar, ?_, ?_⟩
  · intro avail ranked
    cases ranked with
    | nil => simp [select_final_assignee]
    | cons top rest =>
      unfold select_final_assignee
      cases hf : ((top :: rest).take 3).find? (fun a => avail a.developer) <;> simp
  · intro avail ranked ctx own
    show (select_final_assignee avail ranked).isNone = true ↔ _
    exact Option.isNone_iff_eq_none

/-! ## Claim C1 -/

/-- C1: for every bug report that carries the required `title`,
`description` and `repository` fields, `route_bug_report` does not return
a routing decision at all: it always escapes with
`NameError: name 'defaultdict' is not defined`, because
`_find_potential_assignees` evaluates `defaultdict(...)` (line 121 of
`intelligent_router.py`) while the module imports of lines 2–6 never bind
that name. -/
theorem C1_route_bug_report_raises_nameError :
    ∀ (events : List ChangeEvent) (fetchLM : String → Option Int) (now : Int) (bug : BugData)
      (t d r : String), bug.title = some t → bug.description = some d →
      bug.repository = some r →
      (route_bug_report events fetchLM now bug).result =
        .error (.nameError "defaultdict") := by
  intro events fetchLM now bug t d r ht hd hr
  have hmem : "defaultdict" ∉ intelligentRouterModuleNames := by decide
  obtain ⟨c, hc⟩ : ∃ c, extract_bug_context bug = .ok c := by
    unfold extract_bug_context
    rw [ht, hd]
    exact ⟨_, rfl⟩
  unfold route_bug_report
  rw [hr, hc]
  simp [find_potential_assignees, hmem]

/-- C1 witness: a fully populated concrete bug report against a non-empty
history still produces the `NameError`. -/
theorem C1_route_bug_report_raises_nameError_witness :
    (route_bug_report [⟨"alice", [("src/auth/login.py", 80)]⟩] (fun _ => none) 0
        ⟨some "Login is broken", some "auth fails", some "org/repo",
          some ["src/auth/login.py"], none, some "high"⟩).result =
      .error (.nameError "defaultdict") :=
  C1_route_bug_report_raises_nameError [⟨"alice", [("src/auth/login.py", 80)]⟩]
    (fun _ => none) 0
    ⟨some "Login is broken", some "auth fails", some "org/repo",
      some ["src/auth/login.py"], none, some "high"⟩
    "Login is broken" "auth fails" "org/repo" rfl rfl rfl

/-! ## Claim C2 -/

/-- C2: on a bug report mentioning `src/auth/login.py`, context extraction
does not store the file path: `re.findall` with the single capturing group
`(py|js|...)` returns only the group text, so `mentioned_files` holds the
bare extension `"py"` (and the full path `"src/auth/login.py"` is absent,
so it can never match a key of the file-ownership map). -/
theorem C2_extract_stores_extension_not_path :
    extract_bug_context
        ⟨some "Crash in src/auth/login.py", some "it is broken", some "org/repo",
          none, none, none⟩ =
      .ok ⟨["py"], [], ["authentication"]⟩ := by
  rfl

/-! ## Claim C5 -/

/-- C5 (amended): a report without a `repository` key is rejected
(`KeyError`) before any change-event fetch, but a report with a repository
and no `title` raises its `KeyError` only at context extraction, after
the ownership-analysis fetch for that repository has already run
(`route_bug_report` calls `analyze_repository_ownership` at line 33 and
accesses `bug_data['title']` only at line 75). -/
theorem C5_missing_field_rejection_order :
    ∀ (events : List ChangeEvent) (fetchLM : String → Option Int) (now : Int) (bug : BugData),
      (bug.repository = none →
        route_bug_report events fetchLM now bug = ⟨.error (.keyError "repository"), []⟩) ∧
      (∀ r, bug.repository = some r → bug.title = none →
        (route_bug_report events fetchLM now bug).result = .error (.keyError "title") ∧
        (route_bug_report events fetchLM now bug).fetched_repos = [r]) := by
  intro events fetchLM now bug
  constructor
  · intro h
    unfold route_bug_report
    rw [h]
  · intro r hr ht
    have hex : extract_bug_context bug = .error (.keyError "title") := by
      unfold extract_bug_context
      rw [ht]
    unfold route_bug_report
    rw [hr, hex]
    exact ⟨rfl, rfl⟩

/-- C5 counterexample: a concrete report that has a repository but no
title is not rejected before the fetch — the change-event fetch for
`org/r` has already been performed when the `KeyError` for `title`
escapes. -/
theorem C5_counterexample_title_error_after_fetch :
    (route_bug_report [] (fun _ => none) 0
        ⟨none, some "d", some "org/r", none, none, none⟩).result =
      .error (.keyError "title") ∧
    (route_bug_report [] (fun _ => none) 0
        ⟨none, some "d", some "org/r", none, none, none⟩).fetched_repos ≠ [] := by
  exact ⟨rfl, by decide⟩

/-- C5 witness: the rejection-order theorem applied to two concrete
reports, one missing the repository (rejected with no fetch) and one
missing only the title (`KeyError` after the fetch of `r2`). -/
theorem C5_missing_field_rejection_order_witness :
    route_bug_report [] (fun _ => none) 0 ⟨some "t", some "d", none, none, none, none⟩ =
      ⟨.error (.keyError "repository"), []⟩ ∧
    (route_bug_report [] (fun _ => none) 0
        ⟨none, some "d", some "r2", none, none, none⟩).fetched_repos = ["r2"] :=
  ⟨(C5_missing_field_rejection_order [] (fun _ => none) 0
      ⟨some "t", some "d", none, none, none, none⟩).1 rfl,
    ((C5_missing_field_rejection_order [] (fun _ => none) 0
        ⟨none, some "d", some "r2", none, none, none⟩).2 "r2" rfl rfl).2⟩

/-! ## Claim C9 -/

/-- C9: zero change events produce an `OwnershipModel` whose three
mappings are all empty, with no error; but routing a (fully populated)
bug report against this empty model does not return the escalation
decision the spec promises — it raises the `NameError` of
`_find_potential_assignees` before any decision is assembled. -/
theorem C9_empty_events_empty_model_then_nameError :
    ∀ (fetchLM : String → Option Int) (now : Int),
      analyze_repository_ownership [] fetchLM now =
        ⟨[], [], []⟩ ∧
      (route_bug_report [] fetchLM now
          ⟨some "t", some "d", some "r", none, none, none⟩).result =
        .error (.nameError "defaultdict") := by
  intro fetchLM now
  exact ⟨rfl, rfl⟩

/-! ## Claim C3 -/

/-- C3 counterexample: two contributors with equal accumulated
lines-changed on `src/f.py`, whose events arrive with `"bob"` first.  The
stable `sorted(..., key=lambda x: x[1], reverse=True)` keeps insertion
order on ties, so `"bob"` becomes primary owner and heads the domain
rankings even though `"alice" < "bob"`; ordering by identity ascending
would have put `"alice"` first. -/
theorem C3_counterexample_tie_not_identity_ascending :
    ((assocGet? "src/f.py"
          (analyze_repository_ownership
              [⟨"bob", [("src/f.py", 10)]⟩, ⟨"alice", [("src/f.py", 10)]⟩]
              (fun _ => none) 0).file_ownership).map FileOwnership.primary_owner) =
        some (some "bob") ∧
      (assocGet? "src"
          (analyze_repository_ownership
              [⟨"bob", [("src/f.py", 10)]⟩, ⟨"alice", [("src/f.py", 10)]⟩]
              (fun _ => none) 0).repository_experts) =
        some [("bob", 10), ("alice", 10)] ∧
      "alice".toList < "bob".toList :=
  ⟨rfl, rfl, by decide⟩

theorem mem_insertDescBy {α β : Type} [LinearOrder β] (key : α → β) (x a : α) :
    ∀ l : List α, a ∈ insertDescBy key x l ↔ a = x ∨ a ∈ l := by
  intro l
  induction l with
  | nil => simp [insertDescBy]
  | cons y ys ih =>
    unfold insertDescBy
    by_cases h : key y ≤ key x <;> simp [h, ih] <;> tauto

theorem mem_sortDescBy {α β : Type} [LinearOrder β] (key : α → β) (a : α) :
    ∀ l : List α, a ∈ sortDescBy key l ↔ a ∈ l := by
  intro l
  induction l with
  | nil => simp [sortDescBy]
  | cons x xs ih => simp [sortDescBy, mem_insertDescBy, ih]

theorem filter_insertDescBy {α β : Type} [LinearOrder β] (key : α → β) (x : α) (n : β) :
    ∀ l : List α, (insertDescBy key x l).filter (fun a => decide (key a = n)) =
      if key x = n then x :: l.filter (fun a => decide (key a = n))
      else l.filter (fun a => decide (key a = n)) := by
  intro l
  induction l with
  | nil => by_cases hx : key x = n <;> simp [insertDescBy, hx]
  | cons y ys ih =>
    unfold insertDescBy
    by_cases hyx : key y ≤ key x
    · simp only [if_pos hyx]
      by_cases hx : key x = n <;> simp [List.filter_cons, hx]
    · simp only [if_neg hyx]
      have hxy : key x < key y := not_le.mp hyx
      by_cases hy : key y = n
      · have hx : ¬key x = n := by
          intro h
          rw [h, ← hy] at hxy
          exact lt_irrefl _ hxy
        simp [List.filter_cons, hy, hx, ih]
      · by_cases hx : key x = n <;> simp [List.filter_cons, hy, hx, ih]

theorem filter_sortDescBy {α β : Type} [LinearOrder β] (key : α → β) (n : β) :
    ∀ l : List α, (sortDescBy key l).filter (fun a => decide (key a = n)) =
      l.filter (fun a => decide (key a = n)) := by
  intro l
  induction l with
  | nil => rfl
  | cons x xs ih =>
    simp only [sortDescBy]
    rw [filter_insertDescBy]
    by_cases hx : key x = n <;> simp [List.filter_cons, hx, ih]

theorem pairwise_insertDescBy {α β : Type} [LinearOrder β] (key : α → β) (x : α) :
    ∀ {l : List α}, l.Pairwise (fun p q => key q ≤ key p) →
      (insertDescBy key x l).Pairwise (fun p q => key q ≤ key p) := by
  intro l
  induction l with
  | nil => intro _; simp [insertDescBy]
  | cons y ys ih =>
    intro hp
    rw [List.pairwise_cons] at hp
    obtain ⟨hy, hys⟩ := hp
    unfold insertDescBy
    by_cases hyx : key y ≤ key x
    · simp only [if_pos hyx]
      refine List.Pairwise.cons ?_ (List.Pairwise.cons hy hys)
      intro z hz
      rcases List.mem_cons.mp hz with rfl | hz
      · exact hyx
      · exact le_trans (hy z hz) hyx
    · simp only [if_neg hyx]
      refine List.Pairwise.cons ?_ (ih hys)
      intro z hz
      rcases (mem_insertDescBy key x z ys).mp hz with rfl | hz
      · exact le_of_lt (not_le.mp hyx)
      · exact hy z hz

theorem pairwise_sortDescBy {α β : Type} [LinearOrder β] (key : α → β) :
    ∀ l : List α, (sortDescBy key l).Pairwise (fun p q => key q ≤ key p) := by
  intro l
  induction l with
  | nil => simp [sortDescBy]
  | cons x xs ih => exact pairwise_insertDescBy key x ih

theorem bumpWith_keys {β : Type} (k : String) (d0 : β) (f : β → β) :
    ∀ m : List (String × β), (bumpWith k d0 f m).map Prod.fst =
      if k ∈ m.map Prod.fst then m.map Prod.fst else m.map Prod.fst ++ [k] := by
  intro m
  induction m with
  | nil => simp [bumpWith]
  | cons p tl ih =>
    obtain ⟨k0, v⟩ := p
    by_cases h0 : k0 = k
    · subst h0
      simp [bumpWith]
    · have hne : ¬k = k0 := fun h => h0 h.symm
      by_cases hmem : k ∈ tl.map Prod.fst <;>
        simp [bumpWith, h0, hne, hmem, ih]

/-- C3 (amended): for every event history, the ownership analysis orders
tied contributors by first-encounter (event-processing) order, not by
identity string: (a) the stable descending sort leaves the subsequence of
entries carrying any fixed accumulated lines-changed value unchanged —
so any number of tied contributors, anywhere in a ranking (primary,
secondary, or domain top-3), keep their original relative order; (b) the
sort is descending on accumulated changes; (c) defaultdict accumulation
never reorders keys, so an entry's position is fixed at its first
encounter; (d) for every file of every analyzed model, primary and
secondary owners are read off the stable descending sort of that file's
first-encounter contributor list; (e) for every domain key, the expertise
ranking is the first 3 entries of the stable descending sort of the
domain's first-encounter contributor list. -/
theorem C3_tie_order_is_first_encounter_order :
    (∀ (l : List (String × Nat)) (n : Nat),
      (sortDescBy Prod.snd l).filter (fun p => decide (p.2 = n)) =
        l.filter (fun p => decide (p.2 = n))) ∧
    (∀ l : List (String × Nat),
      (sortDescBy (Prod.snd : String × Nat → Nat) l).Pairwise (fun p q => q.2 ≤ p.2)) ∧
    (∀ (β : Type) (k : String) (d0 : β) (f : β → β) (m : List (String × β)),
      (bumpWith k d0 f m).map Prod.fst =
        if k ∈ m.map Prod.fst then m.map Prod.fst else m.map Prod.fst ++ [k]) ∧
    (∀ (events : List ChangeEvent) (fetchLM : String → Option Int) (now : Int) (fp : String),
      (assocGet? fp (analyze_repository_ownership events fetchLM now).file_ownership).map
          (fun fo => (fo.primary_owner, fo.secondary_owners)) =
        (assocGet? fp (events.foldl processEvent ⟨[], [], []⟩).file_ownership).map
          (fun contribs =>
            ((sortDescBy Prod.snd contribs).head?.map Prod.fst,
              (((sortDescBy Prod.snd contribs).drop 1).take 2).map Prod.fst))) ∧
    (∀ (events : List ChangeEvent) (fetchLM : String → Option Int) (now : Int) (dom : String),
      assocGet? dom (analyze_repository_ownership events fetchLM now).repository_experts =
        (assocGet? dom
            (expertsAcc (events.foldl processEvent ⟨[], [], []⟩).file_ownership)).map
          (fun contribs => (sortDescBy Prod.snd contribs).take 3)) := by
  refine ⟨fun l n => filter_sortDescBy Prod.snd n l, fun l => pairwise_sortDescBy Prod.snd l,
    fun β k d0 f m => bumpWith_keys k d0 f m, ?_, ?_⟩
  · intro events fetchLM now fp
    unfold analyze_repository_ownership
    generalize (events.foldl processEvent ⟨[], [], []⟩) = acc
    dsimp only
    generalize acc.file_ownership = l
    induction l with
    | nil => rfl
    | cons p tl ih =>
      obtain ⟨k0, contribs⟩ := p
      by_cases h : k0 = fp
      · subst h
        simp [assocGet?]
      · simp only [List.map_cons, assocGet?, h, if_false, ite_false]
        exact ih
  · intro events fetchLM now dom
    unfold analyze_repository_ownership identify_experts
    generalize (events.foldl processEvent ⟨[], [], []⟩) = acc
    dsimp only
    generalize expertsAcc acc.file_ownership = l
    induction l with
    | nil => rfl
    | cons p tl ih =>
      obtain ⟨k0, contribs⟩ := p
      by_cases h : k0 = dom
      · subst h
        simp [assocGet?]
      · simp only [List.map_cons, assocGet?, h, if_false, ite_false]
        exact ih

/-! ## Claim C4 -/

theorem ownScoreOf_nil (d : String) : ownScoreOf d [] = 0 := rfl

theorem ownScoreOf_bumpWith_add {f : CandAcc → CandAcc} {q : ℚ}
    (hf : ∀ c, (f c).ownership_score = c.ownership_score + q) (k d : String) :
    ∀ m, ownScoreOf d (bumpWith k candDefault f m) =
      ownScoreOf d m + if k = d then q else 0 := by
  intro m
  induction m with
  | nil =>
    by_cases hkd : k = d <;>
      simp [ownScoreOf, bumpWith, assocGet?, hkd, hf, candDefault]
  | cons p tl ih =>
    obtain ⟨k0, v⟩ := p
    by_cases h0k : k0 = k
    · subst h0k
      by_cases h0d : k0 = d <;>
        simp [ownScoreOf, bumpWith, assocGet?, h0d, hf]
    · by_cases h0d : k0 = d
      · subst h0d
        have hkd : ¬k = k0 := fun h => h0k h.symm
        simp [ownScoreOf, bumpWith, assocGet?, h0k, hkd]
      · simp only [ownScoreOf, bumpWith, assocGet?, h0k, h0d, if_false] at ih ⊢
        simpa [ownScoreOf] using ih

theorem ownScoreOf_bumpWith_keep {f : CandAcc → CandAcc}
    (hf : ∀ c, (f c).ownership_score = c.ownership_score) (k d : String) (m : List (String × CandAcc)) :
    ownScoreOf d (bumpWith k candDefault f m) = ownScoreOf d m := by
  have h := ownScoreOf_bumpWith_add (f := f) (q := 0)
    (fun c => by rw [hf, add_zero]) k d m
  simpa using h

theorem ownScoreOf_secondary_fold (fo : FileOwnership) (fp d : String) :
    ∀ (secs : List String) (m : List (String × CandAcc)),
      ownScoreOf d
          (secs.foldl (fun acc s => bumpWith s candDefault (secondaryUpdate fo fp) acc) m) =
        ownScoreOf d m +
          ((secs.filter (fun s => decide (s = d))).length : ℚ) * (fo.complexity_score * 1) := by
  intro secs
  induction secs with
  | nil => simp
  | cons s tl ih =>
    intro m
    simp only [List.foldl_cons]
    rw [ih, ownScoreOf_bumpWith_add (f := secondaryUpdate fo fp)
      (q := fo.complexity_score * 1) (fun c => rfl) s d m]
    by_cases hsd : s = d <;> simp [hsd, List.filter_cons] <;> push_cast <;> ring

theorem ownScoreOf_scoreFile (own : OwnershipData) (d fp : String)
    (m : List (String × CandAcc)) :
    ownScoreOf d (scoreFile own m fp) = ownScoreOf d m + fileContribution d own fp := by
  unfold scoreFile fileContribution
  cases hfo : assocGet? fp own.file_ownership with
  | none => simp
  | some fo =>
    rw [ownScoreOf_secondary_fold]
    cases hp : fo.primary_owner with
    | none =>
      simp only [hp]
      ring
    | some p =>
      simp only [hp]
      by_cases hep : p = ""
      · simp only [hep, if_true, ite_true]
        ring
      · simp only [hep, if_false, ite_false]
        rw [ownScoreOf_bumpWith_add (f := primaryUpdate fo fp)
          (q := fo.complexity_score * 3) (fun c => rfl) p d m]
        by_cases hpd : p = d <;> simp [hpd] <;> ring

theorem ownScoreOf_files_fold (own : OwnershipData) (d : String) :
    ∀ (l : List String) (m : List (String × CandAcc)),
      ownScoreOf d (l.foldl (scoreFile own) m) =
        ownScoreOf d m + ((l.map (fileContribution d own)).sum) := by
  intro l
  induction l with
  | nil => simp
  | cons fp tl ih =>
    intro m
    simp only [List.foldl_cons, List.map_cons, List.sum_cons]
    rw [ih, ownScoreOf_scoreFile]
    ring

theorem ownScoreOf_expert_fold (area d : String) :
    ∀ (l : List (String × Nat)) (m : List (String × CandAcc)),
      ownScoreOf d (l.foldl (fun acc e => bumpWith e.1 candDefault (expertUpdate area e) acc) m) =
        ownScoreOf d m := by
  intro l
  induction l with
  | nil => simp
  | cons e tl ih =>
    intro m
    simp only [List.foldl_cons]
    rw [ih, ownScoreOf_bumpWith_keep (f := expertUpdate area e) (fun c => rfl)]

theorem ownScoreOf_scoreArea (own : OwnershipData) (d area : String)
    (m : List (String × CandAcc)) :
    ownScoreOf d (scoreArea own m area) = ownScoreOf d m := by
  unfold scoreArea
  cases hx : assocGet? area own.repository_experts with
  | none => rfl
  | some experts => rw [ownScoreOf_expert_fold]

theorem ownScoreOf_areas_fold (own : OwnershipData) (d : String) :
    ∀ (areas : List String) (m : List (String × CandAcc)),
      ownScoreOf d (areas.foldl (scoreArea own) m) = ownScoreOf d m := by
  intro areas
  induction areas with
  | nil => simp
  | cons a tl ih =>
    intro m
    simp only [List.foldl_cons]
    rw [ih, ownScoreOf_scoreArea]

/-- C4 counterexample: one file `f.py` owned by `alice` (complexity 0.62),
mentioned once in the context; adding the same path to `affected_files`
as well (the claim says this must not change any ownership score) doubles
alice's ownership score from 1.86 to 3.72. -/
theorem C4_counterexample_duplicate_path_changes_scores :
    (find_potential_assignees_body ⟨["f.py"], [], []⟩
          (analyze_repository_ownership [⟨"alice", [("f.py", 80)]⟩] (fun _ => none) 0)
          ["f.py"]).map Candidate.ownership_score ≠
      (find_potential_assignees_body ⟨["f.py"], [], []⟩
          (analyze_repository_ownership [⟨"alice", [("f.py", 80)]⟩] (fun _ => none) 0)
          []).map Candidate.ownership_score := by
  have hacc1 : accumulate_candidates ⟨["f.py"], [], []⟩
      (analyze_repository_ownership [⟨"alice", [("f.py", 80)]⟩] (fun _ => none) 0) ["f.py"] =
      [("alice",
        ⟨0 + calculate_complexity_score 80 1 * 3 + calculate_complexity_score 80 1 * 3, 0,
          ["f.py", "f.py"], []⟩)] := rfl
  have hacc2 : accumulate_candidates ⟨["f.py"], [], []⟩
      (analyze_repository_ownership [⟨"alice", [("f.py", 80)]⟩] (fun _ => none) 0) [] =
      [("alice", ⟨0 + calculate_complexity_score 80 1 * 3, 0, ["f.py"], []⟩)] := rfl
  have hc : calculate_complexity_score 80 1 = 31 / 50 := by
    norm_num [calculate_complexity_score, min_def]
  simp only [find_potential_assignees_body, hacc1, hacc2, hc,
    List.filter_cons, List.filter_nil, Bool.or_eq_true, decide_eq_true_eq]
  norm_num

/-- C4 (amended): candidate scoring treats the relevant files as the
concatenated occurrence list `affected_files ++ mentioned_files`, not as a
set: every developer's accumulated ownership score is the sum of the
per-file contribution over each occurrence, so a duplicated path adds its
contribution once per occurrence. -/
theorem C4_ownership_score_counts_each_occurrence :
    ∀ (context : BugContext) (own : OwnershipData) (affected_files : List String) (d : String),
      ownScoreOf d (accumulate_candidates context own affected_files) =
        ((affected_files ++ context.mentioned_files).map (fileContribution d own)).sum := by
  intro context own affected_files d
  unfold accumulate_candidates
  rw [ownScoreOf_areas_fold, ownScoreOf_files_fold, ownScoreOf_nil]
  ring

/-! ## Claim C10 -/

theorem accInv_candDefault : accInv candDefault := by
  simp [accInv, candDefault]

theorem primaryUpdate_inv {fo : FileOwnership} (hwf : 0 ≤ fo.complexity_score) (fp : String)
    {c : CandAcc} (h : accInv c) : accInv (primaryUpdate fo fp c) := by
  obtain ⟨h1, h2, h3, h4⟩ := h
  refine ⟨?_, h2, ?_, h4⟩
  · show 0 ≤ c.ownership_score + fo.complexity_score * 3
    linarith
  · intro _
    show c.files_owned ++ [fp] ≠ []
    simp

theorem secondaryUpdate_inv {fo : FileOwnership} (hwf : 0 ≤ fo.complexity_score) (fp : String)
    {c : CandAcc} (h : accInv c) : accInv (secondaryUpdate fo fp c) := by
  obtain ⟨h1, h2, h3, h4⟩ := h
  refine ⟨?_, h2, ?_, h4⟩
  · show 0 ≤ c.ownership_score + fo.complexity_score * 1
    linarith
  · intro _
    show c.files_owned ++ [fp] ≠ []
    simp

theorem expertUpdate_inv (area : String) (e : String × Nat) {c : CandAcc} (h : accInv c) :
    accInv (expertUpdate area e c) := by
  obtain ⟨h1, h2, h3, h4⟩ := h
  refine ⟨h1, ?_, h3, ?_⟩
  · show 0 ≤ c.expertise_score + (e.2 : ℚ) * (1 / 2)
    have : (0 : ℚ) ≤ (e.2 : ℚ) := Nat.cast_nonneg _
    linarith
  · intro _
    show c.areas_of_expertise ++ [area] ≠ []
    simp

theorem assocGet?_mem {β : Type} {k : String} {v : β} :
    ∀ {l : List (String × β)}, assocGet? k l = some v → (k, v) ∈ l := by
  intro l
  induction l with
  | nil => intro h; simp [assocGet?] at h
  | cons p tl ih =>
    intro h
    obtain ⟨k0, v0⟩ := p
    by_cases hk : k0 = k
    · subst hk
      simp [assocGet?] at h
      subst h
      exact List.mem_cons_self _ _
    · simp [assocGet?, hk] at h
      exact List.mem_cons_of_mem _ (ih h)

theorem bumpWith_inv {f : CandAcc → CandAcc} (hf : ∀ c, accInv c → accInv (f c)) (k : String) :
    ∀ {m : List (String × CandAcc)}, (∀ kv ∈ m, accInv kv.2) →
      ∀ kv ∈ bumpWith k candDefault f m, accInv kv.2 := by
  intro m
  induction m with
  | nil =>
    intro _ kv hkv
    simp [bumpWith] at hkv
    rw [hkv]
    exact hf _ accInv_candDefault
  | cons p tl ih =>
    intro hm kv hkv
    obtain ⟨k0, v⟩ := p
    by_cases h0 : k0 = k
    · simp only [bumpWith, h0, if_true, ite_true, List.mem_cons] at hkv
      rcases hkv with hkv | hkv
      · rw [hkv]
        exact hf _ (hm (k0, v) (List.mem_cons_self _ _))
      · exact hm kv (List.mem_cons_of_mem _ hkv)
    · simp only [bumpWith, h0, if_false, ite_false, List.mem_cons] at hkv
      rcases hkv with hkv | hkv
      · rw [hkv]
        exact hm (k0, v) (List.mem_cons_self _ _)
      · exact ih (fun kv' hkv' => hm kv' (List.mem_cons_of_mem _ hkv')) kv hkv

theorem secondary_fold_inv {fo : FileOwnership} (hwf : 0 ≤ fo.complexity_score) (fp : String) :
    ∀ (secs : List String) (m : List (String × CandAcc)), (∀ kv ∈ m, accInv kv.2) →
      ∀ kv ∈ secs.foldl (fun acc s => bumpWith s candDefault (secondaryUpdate fo fp) acc) m,
        accInv kv.2 := by
  intro secs
  induction secs with
  | nil => intro m hm; simpa using hm
  | cons s tl ih =>
    intro m hm
    simp only [List.foldl_cons]
    exact ih _ (bumpWith_inv (fun c hc => secondaryUpdate_inv hwf fp hc) s hm)

theorem expert_fold_inv (area : String) :
    ∀ (l : List (String × Nat)) (m : List (String × CandAcc)), (∀ kv ∈ m, accInv kv.2) →
      ∀ kv ∈ l.foldl (fun acc e => bumpWith e.1 candDefault (expertUpdate area e) acc) m,
        accInv kv.2 := by
  intro l
  induction l with
  | nil => intro m hm; simpa using hm
  | cons e tl ih =>
    intro m hm
    simp only [List.foldl_cons]
    exact ih _ (bumpWith_inv (fun c hc => expertUpdate_inv area e hc) e.1 hm)

theorem scoreFile_inv {own : OwnershipData}
    (hwf : ∀ kv ∈ own.file_ownership, 0 ≤ kv.2.complexity_score) (fp : String)
    {m : List (String × CandAcc)} (hm : ∀ kv ∈ m, accInv kv.2) :
    ∀ kv ∈ scoreFile own m fp, accInv kv.2 := by
  unfold scoreFile
  cases hfo : assocGet? fp own.file_ownership with
  | none => exact hm
  | some fo =>
    have hc : 0 ≤ fo.complexity_score := hwf (fp, fo) (assocGet?_mem hfo)
    cases hp : fo.primary_owner with
    | none =>
      simp only [hp]
      exact secondary_fold_inv hc fp fo.secondary_owners m hm
    | some p =>
      simp only [hp]
      by_cases hep : p = ""
      · simp only [hep, if_true, ite_true]
        exact secondary_fold_inv hc fp fo.secondary_owners m hm
      · simp only [hep, if_false, ite_false]
        exact secondary_fold_inv hc fp fo.secondary_owners _
          (bumpWith_inv (fun c hcc => primaryUpdate_inv hc fp hcc) p hm)

theorem scoreArea_inv (own : OwnershipData) (area : String)
    {m : List (String × CandAcc)} (hm : ∀ kv ∈ m, accInv kv.2) :
    ∀ kv ∈ scoreArea own m area, accInv kv.2 := by
  unfold scoreArea
  cases hx : assocGet? area own.repository_experts with
  | none => exact hm
  | some experts => exact expert_fold_inv area (experts.take 3) m hm

theorem files_fold_inv {own : OwnershipData}
    (hwf : ∀ kv ∈ own.file_ownership, 0 ≤ kv.2.complexity_score) :
    ∀ (l : List String) (m : List (String × CandAcc)), (∀ kv ∈ m, accInv kv.2) →
      ∀ kv ∈ l.foldl (scoreFile own) m, accInv kv.2 := by
  intro l
  induction l with
  | nil => intro m hm; simpa using hm
  | cons fp tl ih =>
    intro m hm
    simp only [List.foldl_cons]
    exact ih _ (scoreFile_inv hwf fp hm)

theorem areas_fold_inv (own : OwnershipData) :
    ∀ (areas : List String) (m : List (String × CandAcc)), (∀ kv ∈ m, accInv kv.2) →
      ∀ kv ∈ areas.foldl (scoreArea own) m, accInv kv.2 := by
  intro areas
  induction areas with
  | nil => intro m hm; simpa using hm
  | cons a tl ih =>
    intro m hm
    simp only [List.foldl_cons]
    exact ih _ (scoreArea_inv own a hm)

theorem accumulate_inv {context : BugContext} {own : OwnershipData}
    {affected_files : List String}
    (hwf : ∀ kv ∈ own.file_ownership, 0 ≤ kv.2.complexity_score) :
    ∀ kv ∈ accumulate_candidates context own affected_files, accInv kv.2 := by
  unfold accumulate_candidates
  exact areas_fold_inv own context.affected_areas _
    (files_fold_inv hwf _ [] (by simp))

theorem analyze_wf (events : List ChangeEvent) (fetchLM : String → Option Int) (now : Int) :
    ∀ kv ∈ (analyze_repository_ownership events fetchLM now).file_ownership,
      0 ≤ kv.2.complexity_score := by
  intro kv hkv
  unfold analyze_repository_ownership at hkv
  simp only [List.mem_map] at hkv
  obtain ⟨p, _, rfl⟩ := hkv
  exact complexity_nonneg _ _

theorem body_candidate_facts {context : BugContext} {own : OwnershipData}
    {affected_files : List String} {c : Candidate}
    (hwf : ∀ kv ∈ own.file_ownership, 0 ≤ kv.2.complexity_score)
    (hc : c ∈ find_potential_assignees_body context own affected_files) :
    0 ≤ c.ownership_score ∧ 0 ≤ c.expertise_score ∧
      (0 < c.ownership_score → c.files_owned ≠ []) ∧
      (0 < c.expertise_score → c.areas_of_expertise ≠ []) ∧
      (0 < c.ownership_score ∨ 0 < c.expertise_score) ∧
      c.total_score = c.ownership_score + c.expertise_score := by
  unfold find_potential_assignees_body at hc
  obtain ⟨kv, hkvf, rfl⟩ := List.mem_map.mp hc
  obtain ⟨hkvm, hpred⟩ := List.mem_filter.mp hkvf
  obtain ⟨h1, h2, h3, h4⟩ := accumulate_inv hwf kv hkvm
  simp only [Bool.or_eq_true, decide_eq_true_eq] at hpred
  exact ⟨h1, h2, h3, h4, hpred, rfl⟩

theorem rank_assignees_mem {l : List Candidate} {p : Option String} {a : Candidate}
    (h : a ∈ rank_assignees l p) :
    ∃ c ∈ l, a = { c with final_score := c.total_score * priority_multiplier p } := by
  unfold rank_assignees at h
  rw [mem_sortDescBy] at h
  obtain ⟨c, hc, rfl⟩ := List.mem_map.mp h
  exact ⟨c, hc, rfl⟩

theorem priority_multiplier_pos (p : Option String) : 0 < priority_multiplier p := by
  unfold priority_multiplier
  dsimp only
  split_ifs <;> norm_num

theorem select_final_assignee_mem {avail : String → Bool} {ranked : List Candidate}
    {a : Candidate} (h : select_final_assignee avail ranked = some a) : a ∈ ranked := by
  cases ranked with
  | nil => simp [select_final_assignee] at h
  | cons top rest =>
    unfold select_final_assignee at h
    cases hf : ((top :: rest).take 3).find? (fun x => avail x.developer) with
    | some b =>
      rw [hf] at h
      have hb : b ∈ (top :: rest).take 3 := List.mem_of_find?_eq_some hf
      have := List.take_subset 3 (top :: rest) hb
      rwa [← Option.some.inj h]
    | none =>
      rw [hf] at h
      rw [← Option.some.inj h]
      exact List.mem_cons_self _ _

theorem confInner_ge_tenth {a : Candidate} (hfs : 0 ≤ a.final_score)
    (h : a.files_owned ≠ [] ∨ a.areas_of_expertise ≠ []) : 1 / 10 ≤ confInner a := by
  unfold confInner
  have hb0 : 0 ≤ min (a.final_score / 10) 1 :=
    le_min (div_nonneg hfs (by norm_num)) (by norm_num)
  have hb1 : min (a.final_score / 10) 1 ≤ 1 := min_le_right _ _
  by_cases h1 : a.files_owned.isEmpty <;> by_cases h2 : a.areas_of_expertise.isEmpty
  · exfalso
    rw [List.isEmpty_iff] at h1 h2
    rcases h with h | h <;> [exact h h1; exact h h2]
  · simp only [h1, h2, if_true, if_false, Bool.false_eq_true, ite_true, ite_false]
    refine le_min (by linarith) (by norm_num)
  · simp only [h1, h2, if_true, if_false, Bool.false_eq_true, ite_true, ite_false]
    have : (1 / 5 : ℚ) ≤ min (min (a.final_score / 10) 1 + 2 / 10) 1 :=
      le_min (by linarith) (by norm_num)
    linarith
  · simp only [h1, h2, if_true, if_false, Bool.false_eq_true, ite_true, ite_false]
    have hmid : (0 : ℚ) ≤ min (min (a.final_score / 10) 1 + 2 / 10) 1 :=
      le_min (by linarith) (by norm_num)
    refine le_min (by linarith) (by norm_num)

/-- C10: every candidate that candidate discovery produces from an
analyzed ownership model satisfies: a positive ownership score implies a
non-empty `files_owned` and a positive expertise score implies a
non-empty `areas_of_expertise`; consequently every routing request whose
selection returns an assignee gets a confidence score of at least 0.1. -/
theorem C10_candidate_invariants_min_confidence :
    (∀ (events : List ChangeEvent) (fetchLM : String → Option Int) (now : Int)
        (context : BugContext) (affected_files : List String) (c : Candidate),
      c ∈ find_potential_assignees_body context
          (analyze_repository_ownership events fetchLM now) affected_files →
        ((0 < c.ownership_score → c.files_owned ≠ []) ∧
          (0 < c.expertise_score → c.areas_of_expertise ≠ []))) ∧
    (∀ (events : List ChangeEvent) (fetchLM : String → Option Int) (now : Int)
        (context : BugContext) (affected_files : List String) (priority : Option String)
        (avail : String → Bool) (a : Candidate) (ctx2 : BugContext),
      select_final_assignee avail
          (rank_assignees
            (find_potential_assignees_body context
              (analyze_repository_ownership events fetchLM now) affected_files) priority) =
        some a →
      (1 / 10 : ℚ) ≤ calculate_confidence (some a) ctx2) := by
  constructor
  · intro events fetchLM now context affected_files c hc
    have h := body_candidate_facts (analyze_wf events fetchLM now) hc
    exact ⟨h.2.2.1, h.2.2.2.1⟩
  · intro events fetchLM now context affected_files priority avail a ctx2 hsel
    obtain ⟨c, hcb, rfl⟩ := rank_assignees_mem (select_final_assignee_mem hsel)
    obtain ⟨h1, h2, h3, h4, h5, h6⟩ :=
      body_candidate_facts (analyze_wf events fetchLM now) hcb
    have hfs : 0 ≤ ({ c with
        final_score := c.total_score * priority_multiplier priority } : Candidate).final_score := by
      show 0 ≤ c.total_score * priority_multiplier priority
      rw [h6]
      exact mul_nonneg (by linarith) (le_of_lt (priority_multiplier_pos priority))
    have hne : ({ c with final_score := c.total_score * priority_multiplier priority } :
          Candidate).files_owned ≠ [] ∨
        ({ c with final_score := c.total_score * priority_multiplier priority } :
          Candidate).areas_of_expertise ≠ [] := by
      rcases h5 with h | h
      · exact Or.inl (h3 h)
      · exact Or.inr (h4 h)
    calc (1 / 10 : ℚ) = round2 (1 / 10) := round2_tenth.symm
      _ ≤ round2 (confInner _) := round2_mono (confInner_ge_tenth hfs hne)
      _ = calculate_confidence (some _) ctx2 := rfl

/-- C10 witness: the minimum-confidence bound applied to the concrete
pipeline in which `alice` owns `f.py` (complexity 0.62, ownership score
1.86) and is selected; her confidence is at least 0.1. -/
theorem C10_candidate_invariants_min_confidence_witness :
    (1 / 10 : ℚ) ≤ calculate_confidence
        (some ⟨"alice", 93 / 50, 93 / 50, 0, ["f.py"], [], 93 / 50⟩) ⟨[], [], []⟩ :=
  C10_candidate_invariants_min_confidence.2 [⟨"alice", [("f.py", 80)]⟩] (fun _ => none) 0
    ⟨[], [], []⟩ ["f.py"] none (fun _ => true)
    ⟨"alice", 93 / 50, 93 / 50, 0, ["f.py"], [], 93 / 50⟩ ⟨[], [], []⟩
    (by
      have hacc : accumulate_candidates ⟨[], [], []⟩
          (analyze_repository_ownership [⟨"alice", [("f.py", 80)]⟩] (fun _ => none) 0)
          ["f.py"] =
          [("alice", ⟨0 + calculate_complexity_score 80 1 * 3, 0, ["f.py"], []⟩)] := rfl
      have hc : calculate_complexity_score 80 1 = 31 / 50 := by
        norm_num [calculate_complexity_score, min_def]
      have hpos : (0 : ℚ) < 0 + calculate_complexity_score 80 1 * 3 := by
        rw [hc]; norm_num
      simp only [find_potential_assignees_body, hacc, List.filter_cons, List.filter_nil,
        Bool.or_eq_true, decide_eq_true_eq, hpos, true_or, if_true, List.map_cons,
        List.map_nil, rank_assignees, sortDescBy, insertDescBy, select_final_assignee,
        List.take, List.find?, priority_multiplier, Option.getD]
      norm_num [hc, Candidate.mk.injEq]
      simp)

end AutoTriage
